import Mathlib

set_option maxRecDepth 8192

/-!
Verification development for the cryptotimed repository: an RSA trapdoor
time-lock puzzle (TLP) file encryption tool.

The Go sources are shallowly embedded below.  Bytes are modelled as `Nat`
(values < 256 where relevant), byte arrays as `List Nat`, `math/big.Int`
values as `Nat`, and Go functions as Lean functions.  External cryptographic
primitives (SHA-256, ChaCha20-Poly1305, Argon2id), the system RNG and RSA key
generation are not part of the repository; they enter the embedding as
explicit parameters: an abstract `CryptoPrims` bundle for the deterministic
primitives, an explicit stream `draws` for the outputs of `rand.Int`, and
explicit `p q` for the primes produced by `rsa.GenerateKey`.  Unbounded
retry loops in the source (`randomCoprime`, `deriveBaseFromPassword`) are
embedded with an explicit fuel argument and return `Option`.
-/

namespace Cryptotimed

/-! ## Little-endian and big-endian byte encoding (encoding/binary, big.Int) -/

/-- Little-endian byte encoding of a value into exactly `n` bytes, as
`encoding/binary.Write` with `binary.LittleEndian` produces for a fixed-width
unsigned integer. -/
def toLEBytes : Nat → Nat → List Nat
  | 0, _ => []
  | n + 1, v => v % 256 :: toLEBytes n (v / 256)

/-- Little-endian byte decoding, as `encoding/binary.Read` with
`binary.LittleEndian` performs for a fixed-width unsigned integer. -/
def fromLEBytes : List Nat → Nat
  | [] => 0
  | b :: rest => b + 256 * fromLEBytes rest

/-- Big-endian interpretation of bytes, as `big.Int.SetBytes` performs. -/
def fromBEBytes (l : List Nat) : Nat :=
  l.foldl (fun acc b => acc * 256 + b) 0

/-- Big-endian zero-padded encoding into `n` bytes, as `big.Int.FillBytes`
performs on a buffer of length `n`. -/
def toBEBytes (n v : Nat) : List Nat :=
  (toLEBytes n v).reverse

/-! ## Reading primitives (bytes.Reader + binary.Read + io.ReadFull) -/

/-- Read exactly `n` bytes from the front of the input, failing (as
`binary.Read`/`io.ReadFull` do) when fewer are available. -/
def readBytes (n : Nat) (l : List Nat) : Option (List Nat × List Nat) :=
  if n ≤ l.length then some (l.take n, l.drop n) else none

/-- Read an `n`-byte little-endian unsigned integer from the front of the
input. -/
def readUInt (n : Nat) (l : List Nat) : Option (Nat × List Nat) :=
  (readBytes n l).map fun x => (fromLEBytes x.1, x.2)

/-! ## Time-lock puzzle engine (crypto/tlp.go) -/

/-- Argon2id KDF parameters (struct `Argon2idParams` in tlp.go). -/
structure Argon2idParams where
  memory : Nat
  time : Nat
  parallelism : Nat
  keyLen : Nat
deriving DecidableEq

/-- `DefaultArgon2idParams` from tlp.go: 64 MiB memory, 3 passes, one
thread, 32-byte output. -/
def defaultArgon2idParams : Argon2idParams :=
  { memory := 64 * 1024, time := 3, parallelism := 1, keyLen := 32 }

/-- The Go zero value of `Argon2idParams`, left in place whenever the code
never assigns the field. -/
def zeroArgon2idParams : Argon2idParams :=
  { memory := 0, time := 0, parallelism := 0, keyLen := 0 }

/-- The public puzzle (struct `Puzzle` in tlp.go). -/
structure Puzzle where
  N : Nat
  G : Nat
  T : Nat
  target : Nat
  salt : List Nat
  kdfID : Nat
  kdfParams : Argon2idParams
deriving DecidableEq

/-- Loop body of `powTwoMod`: Go iterates while `e > 0`, multiplying `res`
by `base` when the low bit of `e` is set and squaring `base` each round.
The loop halves `e` each round, so it runs at most `e` times; the explicit
`fuel` argument (initialised to `e` by `powTwoMod`) makes the recursion
structural and is never exhausted before `e` reaches 0. -/
def powTwoModAux (m : Nat) : Nat → Nat → Nat → Nat → Nat
  | res, _, 0, _ => res
  | res, _, _ + 1, 0 => res
  | res, base, e + 1, fuel + 1 =>
    powTwoModAux m (if (e + 1) % 2 = 1 then res * base % m else res)
      (base * base % m) ((e + 1) / 2) fuel

/-- `powTwoMod` from tlp.go: `2 ^ t mod m` by binary exponentiation, with
`res = 1` and `base = 2` initially. -/
def powTwoMod (m t : Nat) : Nat :=
  powTwoModAux m 1 2 t t

/-- One sequential modular squaring (`SequentialSquaring` in tlp.go, and the
body of the `SolvePuzzle` loop). -/
def squareMod (N x : Nat) : Nat :=
  x * x % N

/-- `SolvePuzzle` from tlp.go: starting from `g`, square modulo `N` exactly
`t` times.  The progress callback does not affect the returned value; its
call pattern is modelled separately by `progressTrace`. -/
def solvePuzzle (N g t : Nat) : Nat :=
  (squareMod N)^[t] g

/-- The constant `step` of `SolvePuzzle`: `1 << 20`. -/
def progressStep : Nat := 1 <<< 20

/-- The sequence of `done` values passed to the progress callback by
`SolvePuzzle`: for each loop index `i < t`, the value `i + 1` is reported
when `(i+1) % step == 0` or `i+1 == t`. -/
def progressTrace (t : Nat) : List Nat :=
  ((List.range t).map fun i => i + 1).filter
    fun d => d % progressStep == 0 || d == t

/-- `randomCoprime` from tlp.go, with the outputs of `rand.Int(r, N-2)`
supplied as the stream `draws` (the rand contract puts `draws i < N - 2`)
and the unbounded retry loop bounded by `fuel`. -/
def randomCoprimeAux (draws : Nat → Nat) (N : Nat) : Nat → Nat → Option Nat
  | _, 0 => none
  | i, fuel + 1 =>
    let g := draws i + 2
    if Nat.gcd g N = 1 then some g else randomCoprimeAux draws N (i + 1) fuel

/-- Entry point of `randomCoprime`: start consuming the draw stream at
index 0. -/
def randomCoprime (draws : Nat → Nat) (N fuel : Nat) : Option Nat :=
  randomCoprimeAux draws N 0 fuel

/-- The retry loop at the end of `deriveBaseFromPassword`: if
`gcd(g0, N) ≠ 1`, increment `g0`, wrapping to 2 once it reaches `N - 1`. -/
def deriveSearch (N : Nat) : Nat → Nat → Option Nat
  | _, 0 => none
  | g0, fuel + 1 =>
    if Nat.gcd g0 N = 1 then some g0
    else
      let g1 := g0 + 1
      deriveSearch N (if N - 1 ≤ g1 then 2 else g1) fuel

/-- `deriveBaseFromPassword` from tlp.go.  `idKey` stands for the external
`argon2.IDKey(password, salt, time, memory, parallelism, keyLen)`; the key
material is read big-endian and mapped to `(k mod (N-3)) + 2 ∈ [2, N-2]`
before the coprimality search. -/
def deriveBaseFromPassword (idKey : List Nat → List Nat → Nat → Nat → Nat → Nat → List Nat)
    (password salt : List Nat) (params : Argon2idParams) (N fuel : Nat) : Option Nat :=
  let km := idKey password salt params.time params.memory params.parallelism params.keyLen
  let k := fromBEBytes km
  deriveSearch N (k % (N - 3) + 2) fuel

/-- `GeneratePuzzle` from tlp.go.  The RSA key returned by
`rsa.GenerateKey` is supplied as its primes `p`, `q` (so `N = p*q` and
`φ(N) = (p-1)(q-1)`), the RNG as `draws` (coprime search) and `salt`
(the 16 random salt bytes drawn in password mode).  With an empty password
the base is random and the KDF fields keep their Go zero values; otherwise
the base is derived from the password with the default Argon2id
parameters.  The target is computed with the trapdoor:
`g ^ (2^t mod φ(N)) mod N`. -/
def generatePuzzle (idKey : List Nat → List Nat → Nat → Nat → Nat → Nat → List Nat)
    (t : Nat) (password : List Nat) (p q : Nat) (draws : Nat → Nat)
    (salt : List Nat) (fuel : Nat) : Option Puzzle :=
  let N := p * q
  let phiN := (p - 1) * (q - 1)
  let gOpt :=
    if password = [] then randomCoprime draws N fuel
    else deriveBaseFromPassword idKey password salt defaultArgon2idParams N fuel
  match gOpt with
  | none => none
  | some g =>
    some { N := N, G := g, T := t,
           target := g ^ powTwoMod phiN t % N,
           salt := if password = [] then List.replicate 16 0 else salt,
           kdfID := if password = [] then 0 else 1,
           kdfParams := if password = [] then zeroArgon2idParams
             else defaultArgon2idParams }

/-! ## Container codec (types/structs.go, utils/file.go) -/

/-- `EncryptedFile` from types/structs.go (current, version-2 layout):
version, work factor, 256-byte modulus and base, key-required flag, 16-byte
salt, KDF identifier, 8 encoded KDF parameter bytes, and the AEAD data
blob. -/
structure EncryptedFile where
  version : Nat
  workFactor : Nat
  modulusN : List Nat
  baseG : List Nat
  keyRequired : Nat
  salt : List Nat
  kdfID : Nat
  kdfParams : List Nat
  data : List Nat
deriving DecidableEq

/-- Well-formedness of an `EncryptedFile` value as the Go struct guarantees
it by typing: fixed array lengths and machine-integer bounds (u32 version,
u64 work factor and data length, u8 flag and KDF id). -/
def wellFormed (ef : EncryptedFile) : Prop :=
  ef.version < 256 ^ 4 ∧ ef.workFactor < 256 ^ 8 ∧
  ef.modulusN.length = 256 ∧ ef.baseG.length = 256 ∧
  ef.keyRequired < 256 ∧ ef.salt.length = 16 ∧
  ef.kdfID < 256 ∧ ef.kdfParams.length = 8 ∧ ef.data.length < 256 ^ 8

instance (ef : EncryptedFile) : Decidable (wellFormed ef) := by
  unfold wellFormed; infer_instance

/-- `WriteEncryptedFile` from utils/file.go, minus the file IO: the byte
image written to disk.  Each `binary.Write` call appends its field in
little-endian order; the data blob is preceded by its u64 length. -/
def writeEncryptedFile (ef : EncryptedFile) : List Nat :=
  toLEBytes 4 ef.version ++ toLEBytes 8 ef.workFactor ++ ef.modulusN ++
  ef.baseG ++ [ef.keyRequired] ++ ef.salt ++ [ef.kdfID] ++ ef.kdfParams ++
  toLEBytes 8 ef.data.length ++ ef.data

/-- `ReadEncryptedFile` from utils/file.go, minus the file IO: parse the
byte image.  After the common fields, a version of at least 2 selects the
current layout (salt, KDF id, KDF parameters); otherwise the legacy
version-1 fields (48-byte EncKey, 12-byte Nonce) are read and discarded and
the version-2-only fields keep their Go zero values. -/
def readEncryptedFile (bytes : List Nat) : Option EncryptedFile :=
  (readUInt 4 bytes).bind fun p1 =>
  (readUInt 8 p1.2).bind fun p2 =>
  (readBytes 256 p2.2).bind fun p3 =>
  (readBytes 256 p3.2).bind fun p4 =>
  (readUInt 1 p4.2).bind fun p5 =>
  if 2 ≤ p1.1 then
    (readBytes 16 p5.2).bind fun p6 =>
    (readUInt 1 p6.2).bind fun p7 =>
    (readBytes 8 p7.2).bind fun p8 =>
    (readUInt 8 p8.2).bind fun p9 =>
    (readBytes p9.1 p9.2).bind fun p10 =>
    some { version := p1.1, workFactor := p2.1, modulusN := p3.1,
           baseG := p4.1, keyRequired := p5.1, salt := p6.1, kdfID := p7.1,
           kdfParams := p8.1, data := p10.1 }
  else
    (readBytes 48 p5.2).bind fun p6 =>
    (readBytes 12 p6.2).bind fun p7 =>
    (readUInt 8 p7.2).bind fun p8 =>
    (readBytes p8.1 p8.2).bind fun p9 =>
    some { version := p1.1, workFactor := p2.1, modulusN := p3.1,
           baseG := p4.1, keyRequired := p5.1, salt := List.replicate 16 0,
           kdfID := 0, kdfParams := List.replicate 8 0, data := p9.1 }

/-- `DecodeKdfParams` from tlp.go: memory and time are big-endian u32s in
the 8-byte field; parallelism and key length are reset to the fixed
defaults. -/
def decodeKdfParams (encoded : List Nat) : Argon2idParams :=
  { memory := fromBEBytes (encoded.take 4),
    time := fromBEBytes ((encoded.drop 4).take 4),
    parallelism := defaultArgon2idParams.parallelism,
    keyLen := defaultArgon2idParams.keyLen }

/-- `PuzzleFromEncryptedFile` from utils/file.go.  The Go code leaves
`Target` nil (to be recomputed by `SolvePuzzle`); the embedding uses 0.
KDF parameters are decoded only when `KdfID` is `KdfArgon2id` (1); the
struct otherwise keeps its zero value. -/
def puzzleFromEncryptedFile (ef : EncryptedFile) : Puzzle :=
  { N := fromBEBytes ef.modulusN, G := fromBEBytes ef.baseG,
    T := ef.workFactor, target := 0, salt := ef.salt, kdfID := ef.kdfID,
    kdfParams := if ef.kdfID = 1 then decodeKdfParams ef.kdfParams
      else zeroArgon2idParams }

/-! ## AEAD payload layer (crypto/encryption.go) and operations -/

/-- External cryptographic primitives used by the repository: SHA-256,
Argon2id (`argon2.IDKey`), and the ChaCha20-Poly1305 seal/open pair (seal
returns ciphertext plus tag for a given key and nonce; open returns `none`
exactly when authentication fails). -/
structure CryptoPrims where
  sha256 : List Nat → List Nat
  idKey : List Nat → List Nat → Nat → Nat → Nat → Nat → List Nat
  aeadSeal : List Nat → List Nat → List Nat → List Nat
  aeadOpen : List Nat → List Nat → List Nat → Option (List Nat)

/-- `DerivePuzzleKey` from tlp.go: SHA-256 of the target encoded big-endian
and zero-padded to 256 bytes. -/
def derivePuzzleKey (C : CryptoPrims) (target : Nat) : List Nat :=
  C.sha256 (toBEBytes 256 target)

/-- `EncryptData` from crypto/encryption.go with the random nonce supplied
explicitly: the stored blob is `nonce ‖ Seal(key, nonce, plaintext)`. -/
def encryptData (C : CryptoPrims) (key nonce plaintext : List Nat) : List Nat :=
  nonce ++ C.aeadSeal key nonce plaintext

/-- Error results of `DecryptData`. -/
inductive DecDataError where
  | ciphertextTooShort
  | authFailed
deriving DecidableEq

/-- `DecryptData` from crypto/encryption.go: reject blobs shorter than the
12-byte nonce, otherwise split off the nonce and open the remainder. -/
def decryptData (C : CryptoPrims) (key ciphertext : List Nat) :
    Except DecDataError (List Nat) :=
  if ciphertext.length < 12 then .error .ciphertextTooShort
  else
    match C.aeadOpen key (ciphertext.take 12) (ciphertext.drop 12) with
    | some plaintext => .ok plaintext
    | none => .error .authFailed

/-- `EncryptFile` from operations/encrypt.go, minus the file IO: the record
it writes.  `userKeyRaw` is the parsed key input (`ParseKeyInput`: empty
string gives nil, otherwise the literal bytes).  The Go code builds the
`EncryptedFile` literal without assigning `KdfID` or `KdfParams`, so those
fields keep their zero values in the written record even when a password
was used. -/
def encryptFile (C : CryptoPrims) (plaintext : List Nat) (workFactor : Nat)
    (userKeyRaw : List Nat) (p q : Nat) (draws : Nat → Nat)
    (salt nonce : List Nat) (fuel : Nat) : Option EncryptedFile :=
  match generatePuzzle C.idKey workFactor userKeyRaw p q draws salt fuel with
  | none => none
  | some puz =>
    let encryptionKey := derivePuzzleKey C puz.target
    let keyRequired := if 0 < userKeyRaw.length then 1 else 0
    let encryptedData := encryptData C encryptionKey nonce plaintext
    some { version := 2, workFactor := workFactor,
           modulusN := toBEBytes 256 puz.N, baseG := toBEBytes 256 puz.G,
           keyRequired := keyRequired, salt := puz.salt,
           kdfID := 0, kdfParams := List.replicate 8 0,
           data := encryptedData }

/-- Error results of `DecryptFile`. -/
inductive DecError where
  | keyRequiredButMissing
  | passwordRequired
  | deriveFailed
  | decryptionFailed
deriving DecidableEq

/-- `DecryptFile` from operations/decrypt.go, minus the file IO: given the
parsed record and the key input (empty list for the empty string), fail
when a required key is missing, silently drop a stray key when none is
required, re-derive the base from the password for version-2 keyed records
(with the KDF parameters carried by `PuzzleFromEncryptedFile`), solve the
puzzle, derive the symmetric key, and open the payload. -/
def decryptFile (C : CryptoPrims) (fuel : Nat) (ef : EncryptedFile)
    (keyInput : List Nat) : Except DecError (List Nat) :=
  if ef.keyRequired = 1 ∧ keyInput = [] then .error .keyRequiredButMissing
  else
    let userKeyRaw := if ef.keyRequired = 0 ∧ keyInput ≠ [] then [] else keyInput
    let puz := puzzleFromEncryptedFile ef
    let gRes : Except DecError Nat :=
      if 2 ≤ ef.version ∧ ef.keyRequired = 1 then
        if userKeyRaw = [] then .error .passwordRequired
        else
          match deriveBaseFromPassword C.idKey userKeyRaw ef.salt
              puz.kdfParams puz.N fuel with
          | some g => .ok g
          | none => .error .deriveFailed
      else .ok puz.G
    match gRes with
    | .error e => .error e
    | .ok g =>
      let target := solvePuzzle puz.N g puz.T
      let decryptionKey := derivePuzzleKey C target
      match decryptData C decryptionKey ef.data with
      | .ok plaintext => .ok plaintext
      | .error _ => .error .decryptionFailed

/-- The pair of KDF-relevant facts a record presents to `DecryptFile`: the
key-required flag, the stored KDF id, and the Argon2id parameters that
`PuzzleFromEncryptedFile` hands to the password derivation. -/
def recordKdfView (ef : EncryptedFile) : Nat × Nat × Argon2idParams :=
  (ef.keyRequired, ef.kdfID, (puzzleFromEncryptedFile ef).kdfParams)

/-! ## Concrete instances used to witness the claim theorems -/

/-- A simple computable instantiation of the external primitives, used only
to evaluate the embedding on concrete inputs. -/
def trivialPrims : CryptoPrims where
  sha256 := fun _ => List.replicate 32 0
  idKey := fun _ _ _ _ _ _ => [7]
  aeadSeal := fun _ _ plaintext => plaintext ++ List.replicate 16 0
  aeadOpen := fun _ _ ct => some ct

/-- A constant RNG stream: every draw of `rand.Int` returns 1. -/
def drawsEx : Nat → Nat := fun _ => 1

/-- A concrete 16-byte salt. -/
def saltEx : List Nat := List.replicate 16 1

/-- A concrete 12-byte nonce. -/
def nonceEx : List Nat := List.replicate 12 0

/-- The puzzle `generatePuzzle` produces for `t = 3`, no password, primes 5
and 7, and the constant draw stream: base 3, target `3 ^ 8 mod 35 = 16`. -/
def puzEx : Puzzle :=
  { N := 35, G := 3, T := 3, target := 16, salt := List.replicate 16 0,
    kdfID := 0, kdfParams := zeroArgon2idParams }

/-- The puzzle `generatePuzzle` produces for `t = 0` with the same inputs:
target equals the base. -/
def puz0Ex : Puzzle :=
  { N := 35, G := 3, T := 0, target := 3, salt := List.replicate 16 0,
    kdfID := 0, kdfParams := zeroArgon2idParams }

/-- The puzzle `generatePuzzle` produces for `t = 1` with the same inputs. -/
def puz9Ex : Puzzle :=
  { N := 35, G := 3, T := 1, target := 9, salt := List.replicate 16 0,
    kdfID := 0, kdfParams := zeroArgon2idParams }

/-- A 558-byte record image whose version field decodes to 3: the first
byte is 3, everything else is 0 (work factor 0, zero modulus and base, no
key, zero salt and KDF fields, data length 0). -/
def bytesV3 : List Nat := 3 :: List.replicate 557 0

/-- An all-zero current-version record with empty data. -/
def efZero : EncryptedFile :=
  { version := 2, workFactor := 0, modulusN := List.replicate 256 0,
    baseG := List.replicate 256 0, keyRequired := 0,
    salt := List.replicate 16 0, kdfID := 0,
    kdfParams := List.replicate 8 0, data := [] }

/-- A well-formed record with version 3 and one data byte. -/
def ef3Ex : EncryptedFile :=
  { version := 3, workFactor := 1, modulusN := List.replicate 256 0,
    baseG := List.replicate 256 0, keyRequired := 0,
    salt := List.replicate 16 0, kdfID := 0,
    kdfParams := List.replicate 8 0, data := [5] }

/-- A concrete record that requires a key (`key_required = 1`). -/
def ef5Ex : EncryptedFile :=
  { version := 2, workFactor := 1, modulusN := List.replicate 255 0 ++ [35],
    baseG := List.replicate 255 0 ++ [3], keyRequired := 1,
    salt := List.replicate 16 1, kdfID := 0,
    kdfParams := List.replicate 8 0, data := [1, 2, 3] }

/-- A concrete record that requires no key (`key_required = 0`). -/
def ef6Ex : EncryptedFile :=
  { version := 2, workFactor := 1, modulusN := List.replicate 255 0 ++ [35],
    baseG := List.replicate 255 0 ++ [3], keyRequired := 0,
    salt := List.replicate 16 0, kdfID := 0,
    kdfParams := List.replicate 8 0, data := [1, 2, 3] }

/-! ## Byte-encoding lemmas -/

theorem toLEBytes_length (n : Nat) : ∀ v, (toLEBytes n v).length = n := by
  induction n with
  | zero => intro v; rfl
  | succ n ih => intro v; simp [toLEBytes, ih]

theorem fromLEBytes_toLEBytes (n : Nat) :
    ∀ v, v < 256 ^ n → fromLEBytes (toLEBytes n v) = v := by
  induction n with
  | zero =>
    intro v hv
    interval_cases v
    rfl
  | succ n ih =>
    intro v hv
    have hdiv : v / 256 < 256 ^ n := by
      rw [Nat.div_lt_iff_lt_mul (by norm_num)]
      calc v < 256 ^ (n + 1) := hv
        _ = 256 ^ n * 256 := by ring
    simp only [toLEBytes, fromLEBytes, ih (v / 256) hdiv]
    exact Nat.mod_add_div v 256

theorem readBytes_append {l : List Nat} {n : Nat} (h : l.length = n)
    (r : List Nat) : readBytes n (l ++ r) = some (l, r) := by
  subst h
  simp [readBytes, List.take_left, List.drop_left]

theorem readBytes_self (l : List Nat) : readBytes l.length l = some (l, []) := by
  simp [readBytes]

theorem readUInt_toLEBytes {n v : Nat} (h : v < 256 ^ n) (r : List Nat) :
    readUInt n (toLEBytes n v ++ r) = some (v, r) := by
  simp [readUInt, readBytes_append (toLEBytes_length n v) r,
    fromLEBytes_toLEBytes n v h]

theorem readUInt_one (b : Nat) (r : List Nat) :
    readUInt 1 (b :: r) = some (b, r) := by
  simp [readUInt, readBytes, fromLEBytes]

/-! ## Correctness lemmas for the puzzle engine -/

theorem powTwoModAux_modEq (m : Nat) :
    ∀ fuel e res base, e ≤ fuel →
      powTwoModAux m res base e fuel ≡ res * base ^ e [MOD m] := by
  intro fuel
  induction fuel with
  | zero =>
    intro e res base he
    interval_cases e
    simpa using Nat.ModEq.refl res
  | succ f ih =>
    intro e res base he
    match e with
    | 0 => simpa using Nat.ModEq.refl res
    | e + 1 =>
      rw [powTwoModAux]
      have hrec : (e + 1) / 2 ≤ f := by omega
      have step := ih ((e + 1) / 2)
        (if (e + 1) % 2 = 1 then res * base % m else res) (base * base % m) hrec
      refine step.trans ?_
      have hbase : base * base % m ≡ base * base [MOD m] := Nat.mod_modEq _ m
      by_cases hodd : (e + 1) % 2 = 1
      · simp only [hodd, if_true]
        calc res * base % m * (base * base % m) ^ ((e + 1) / 2)
            ≡ res * base * (base * base) ^ ((e + 1) / 2) [MOD m] :=
              (Nat.mod_modEq _ m).mul (hbase.pow _)
          _ = res * base ^ (e + 1) := by
              rw [mul_assoc, ← pow_two, ← pow_mul, ← pow_succ']
              congr 2
              omega
      · have heven : (e + 1) % 2 = 0 := by omega
        simp only [hodd, if_false]
        calc res * (base * base % m) ^ ((e + 1) / 2)
            ≡ res * (base * base) ^ ((e + 1) / 2) [MOD m] :=
              (Nat.ModEq.refl res).mul (hbase.pow _)
          _ = res * base ^ (e + 1) := by
              rw [← pow_two, ← pow_mul]
              congr 2
              omega

theorem powTwoMod_modEq (m t : Nat) : powTwoMod m t ≡ 2 ^ t [MOD m] := by
  have h := powTwoModAux_modEq m t t 1 2 (Nat.le_refl t)
  simpa [powTwoMod] using h

theorem solvePuzzle_zero (N g : Nat) : solvePuzzle N g 0 = g := rfl

theorem solvePuzzle_succ (N g t : Nat) :
    solvePuzzle N g (t + 1) = squareMod N (solvePuzzle N g t) := by
  unfold solvePuzzle
  exact Function.iterate_succ_apply' (squareMod N) t g

theorem solvePuzzle_modEq (N g : Nat) :
    ∀ t, solvePuzzle N g t ≡ g ^ 2 ^ t [MOD N] := by
  intro t
  induction t with
  | zero => simpa [solvePuzzle_zero] using Nat.ModEq.refl g
  | succ s ih =>
    rw [solvePuzzle_succ]
    calc squareMod N (solvePuzzle N g s)
        ≡ solvePuzzle N g s * solvePuzzle N g s [MOD N] := Nat.mod_modEq _ N
      _ ≡ g ^ 2 ^ s * g ^ 2 ^ s [MOD N] := ih.mul ih
      _ = g ^ 2 ^ (s + 1) := by
          rw [← pow_add]
          congr 1
          rw [pow_succ]
          omega

theorem solvePuzzle_lt (N g t : Nat) (ht : 0 < t) (hN : 0 < N) :
    solvePuzzle N g t < N := by
  obtain ⟨s, rfl⟩ : ∃ s, t = s + 1 := ⟨t - 1, by omega⟩
  rw [solvePuzzle_succ]
  exact Nat.mod_lt _ hN

theorem solvePuzzle_eq_pow_mod (N g t : Nat) (ht : 0 < t) (hN : 0 < N) :
    solvePuzzle N g t = g ^ 2 ^ t % N := by
  have h := solvePuzzle_modEq N g t
  have hlt := solvePuzzle_lt N g t ht hN
  calc solvePuzzle N g t = solvePuzzle N g t % N := (Nat.mod_eq_of_lt hlt).symm
    _ = g ^ 2 ^ t % N := h

/-- Fermat–Euler exponent reduction, one inequality direction. -/
theorem pow_modEq_of_le {g N a b : Nat} (hg : Nat.Coprime g N)
    (hab : a ≡ b [MOD Nat.totient N]) (hle : a ≤ b) :
    g ^ a ≡ g ^ b [MOD N] := by
  obtain ⟨k, hk⟩ := (Nat.modEq_iff_dvd' hle).mp hab
  have hb : b = a + Nat.totient N * k := by omega
  subst hb
  rw [pow_add, pow_mul]
  calc g ^ a = g ^ a * 1 ^ k := by ring
    _ ≡ g ^ a * (g ^ Nat.totient N) ^ k [MOD N] :=
        (Nat.ModEq.refl _).mul (((Nat.ModEq.pow_totient hg).symm).pow k)

/-- Fermat–Euler exponent reduction: congruent exponents modulo `φ(N)` give
congruent powers modulo `N` for bases coprime with `N`. -/
theorem pow_modEq_of_totient_modEq {g N a b : Nat} (hg : Nat.Coprime g N)
    (hab : a ≡ b [MOD Nat.totient N]) : g ^ a ≡ g ^ b [MOD N] := by
  rcases Nat.le_total a b with h | h
  · exact pow_modEq_of_le hg hab h
  · exact (pow_modEq_of_le hg hab.symm h).symm

theorem totient_pq {p q : Nat} (hp : p.Prime) (hq : q.Prime) (hpq : p ≠ q) :
    Nat.totient (p * q) = (p - 1) * (q - 1) := by
  rw [Nat.totient_mul ((Nat.coprime_primes hp hq).mpr hpq),
    Nat.totient_prime hp, Nat.totient_prime hq]

/-! ## Invariants of the base-selection loops -/

theorem randomCoprimeAux_sound {draws : Nat → Nat} {N : Nat}
    (hdr : ∀ i, draws i < N - 2) :
    ∀ fuel i g, randomCoprimeAux draws N i fuel = some g →
      2 ≤ g ∧ g < N ∧ Nat.gcd g N = 1 := by
  intro fuel
  induction fuel with
  | zero => intro i g h; simp [randomCoprimeAux] at h
  | succ f ih =>
    intro i g h
    rw [randomCoprimeAux] at h
    by_cases hg : Nat.gcd (draws i + 2) N = 1
    · simp only [hg, if_true, Option.some.injEq] at h
      subst h
      have := hdr i
      exact ⟨by omega, by omega, hg⟩
    · simp only [hg, if_false] at h
      exact ih (i + 1) g h

theorem deriveSearch_sound {N : Nat} (hN : 4 ≤ N) :
    ∀ fuel g0, 2 ≤ g0 → g0 ≤ N - 2 →
      ∀ g, deriveSearch N g0 fuel = some g →
        2 ≤ g ∧ g ≤ N - 2 ∧ Nat.gcd g N = 1 := by
  intro fuel
  induction fuel with
  | zero => intro g0 _ _ g h; simp [deriveSearch] at h
  | succ f ih =>
    intro g0 h2 hup g h
    rw [deriveSearch] at h
    by_cases hg : Nat.gcd g0 N = 1
    · simp only [hg, if_true, Option.some.injEq] at h
      subst h
      exact ⟨h2, hup, hg⟩
    · simp only [hg, if_false] at h
      by_cases hwrap : N - 1 ≤ g0 + 1
      · simp only [hwrap, if_true] at h
        exact ih 2 (by omega) (by omega) g h
      · simp only [hwrap, if_false] at h
        exact ih (g0 + 1) (by omega) (by omega) g h

theorem deriveBaseFromPassword_sound
    {idKey : List Nat → List Nat → Nat → Nat → Nat → Nat → List Nat}
    {password salt : List Nat} {params : Argon2idParams} {N fuel g : Nat}
    (hN : 4 ≤ N)
    (h : deriveBaseFromPassword idKey password salt params N fuel = some g) :
    2 ≤ g ∧ g ≤ N - 2 ∧ Nat.gcd g N = 1 := by
  unfold deriveBaseFromPassword at h
  set k := fromBEBytes
    (idKey password salt params.time params.memory params.parallelism params.keyLen)
  have hmod : k % (N - 3) < N - 3 := Nat.mod_lt _ (by omega)
  exact deriveSearch_sound hN fuel (k % (N - 3) + 2) (by omega) (by omega) g h

/-- Inversion of `generatePuzzle`: how each field of a produced puzzle is
built, and which base-selection branch ran. -/
theorem generatePuzzle_inv
    {idKey : List Nat → List Nat → Nat → Nat → Nat → Nat → List Nat}
    {t : Nat} {password : List Nat} {p q : Nat} {draws : Nat → Nat}
    {salt : List Nat} {fuel : Nat} {puz : Puzzle}
    (hgen : generatePuzzle idKey t password p q draws salt fuel = some puz) :
    puz.N = p * q ∧ puz.T = t ∧
    puz.target = puz.G ^ powTwoMod ((p - 1) * (q - 1)) t % (p * q) ∧
    ((password = [] ∧ randomCoprime draws (p * q) fuel = some puz.G ∧
        puz.kdfID = 0 ∧ puz.kdfParams = zeroArgon2idParams) ∨
     (password ≠ [] ∧
        deriveBaseFromPassword idKey password salt defaultArgon2idParams
          (p * q) fuel = some puz.G ∧
        puz.kdfID = 1 ∧ puz.kdfParams = defaultArgon2idParams)) := by
  unfold generatePuzzle at hgen
  by_cases hpw : password = []
  · simp only [hpw, if_true] at hgen
    match hG : randomCoprime draws (p * q) fuel with
    | none => rw [hG] at hgen; simp at hgen
    | some g =>
      rw [hG] at hgen
      simp only [Option.some.injEq] at hgen
      subst hgen
      refine ⟨rfl, rfl, rfl, Or.inl ⟨hpw, ?_, rfl, rfl⟩⟩
      rfl
  · simp only [hpw, if_false] at hgen
    match hG : deriveBaseFromPassword idKey password salt defaultArgon2idParams
        (p * q) fuel with
    | none => rw [hG] at hgen; simp at hgen
    | some g =>
      rw [hG] at hgen
      simp only [Option.some.injEq] at hgen
      subst hgen
      refine ⟨rfl, rfl, rfl, Or.inr ⟨hpw, ?_, rfl, rfl⟩⟩
      rfl

/-! ## Progress callback trace lemmas -/

theorem progressTrace_pairwise (t : Nat) :
    (progressTrace t).Pairwise (· < ·) := by
  unfold progressTrace
  apply List.Pairwise.filter
  rw [List.pairwise_map]
  exact (List.pairwise_lt_range t).imp fun h => Nat.succ_lt_succ h

theorem progressTrace_mem_bounds {t d : Nat} (h : d ∈ progressTrace t) :
    1 ≤ d ∧ d ≤ t := by
  unfold progressTrace at h
  have h1 := List.mem_of_mem_filter h
  obtain ⟨i, hi, rfl⟩ := List.mem_map.mp h1
  have := List.mem_range.mp hi
  omega

theorem progressTrace_getLast (t : Nat) (ht : 0 < t) :
    (progressTrace t).getLast? = some t := by
  obtain ⟨s, rfl⟩ : ∃ s, t = s + 1 := ⟨t - 1, by omega⟩
  unfold progressTrace
  rw [List.range_succ, List.map_append, List.filter_append]
  have hsingle :
      List.filter (fun d => d % progressStep == 0 || d == s + 1)
        (List.map (fun i => i + 1) [s]) = [s + 1] := by
    simp [List.filter]
  rw [hsingle, List.getLast?_concat]

theorem progressTrace_ne_nil (t : Nat) (ht : 0 < t) :
    progressTrace t ≠ [] := by
  intro h
  have hlast := progressTrace_getLast t ht
  rw [h] at hlast
  simp at hlast

/-! ## Container codec lemmas -/

/-- Byte length of each serialized field of the current layout: the fixed
header before the u64 data length is 550 bytes. -/
theorem writeEncryptedFile_split (ef : EncryptedFile) :
    writeEncryptedFile ef =
      (toLEBytes 4 ef.version ++ toLEBytes 8 ef.workFactor ++ ef.modulusN ++
        ef.baseG ++ [ef.keyRequired] ++ ef.salt ++ [ef.kdfID] ++ ef.kdfParams) ++
      (toLEBytes 8 ef.data.length ++ ef.data) := by
  simp [writeEncryptedFile, List.append_assoc]

theorem writeEncryptedFile_header_length (ef : EncryptedFile)
    (h3 : ef.modulusN.length = 256) (h4 : ef.baseG.length = 256)
    (h6 : ef.salt.length = 16) (h8 : ef.kdfParams.length = 8) :
    (toLEBytes 4 ef.version ++ toLEBytes 8 ef.workFactor ++ ef.modulusN ++
      ef.baseG ++ [ef.keyRequired] ++ ef.salt ++ [ef.kdfID] ++
      ef.kdfParams).length = 550 := by
  simp [List.length_append, toLEBytes_length, h3, h4, h6, h8]

/-- Parsing inverts serialization for every well-formed record whose version
field is at least 2 — the reader never inspects the version beyond selecting
the layout. -/
theorem readEncryptedFile_writeEncryptedFile (ef : EncryptedFile)
    (h : wellFormed ef) (hv : 2 ≤ ef.version) :
    readEncryptedFile (writeEncryptedFile ef) = some ef := by
  obtain ⟨v, wf, mN, bG, kr, salt, kdf, params, d⟩ := ef
  obtain ⟨h1, h2, h3, h4, h5, h6, h7, h8, h9⟩ := h
  simp only [writeEncryptedFile, readEncryptedFile, List.append_assoc]
  simp only [List.singleton_append]
  rw [readUInt_toLEBytes h1]
  simp only [Option.some_bind]
  rw [readUInt_toLEBytes h2]
  simp only [Option.some_bind]
  rw [readBytes_append h3]
  simp only [Option.some_bind]
  rw [readBytes_append h4]
  simp only [Option.some_bind]
  rw [readUInt_one]
  simp only [Option.some_bind]
  rw [if_pos hv]
  rw [readBytes_append h6]
  simp only [Option.some_bind]
  rw [readUInt_one]
  simp only [Option.some_bind]
  rw [readBytes_append h8]
  simp only [Option.some_bind]
  rw [readUInt_toLEBytes h9]
  simp only [Option.some_bind]
  rw [readBytes_self]
  simp only [Option.some_bind]

/-- Every base a produced puzzle carries is in `(0, N)` and coprime with
`N`, whichever branch selected it. -/
theorem generatePuzzle_G_sound
    {idKey : List Nat → List Nat → Nat → Nat → Nat → Nat → List Nat}
    {t : Nat} {password : List Nat} {p q : Nat} {draws : Nat → Nat}
    {salt : List Nat} {fuel : Nat} {puz : Puzzle}
    (hN : 4 ≤ p * q) (hdr : ∀ i, draws i < p * q - 2)
    (hgen : generatePuzzle idKey t password p q draws salt fuel = some puz) :
    0 < puz.G ∧ puz.G < puz.N ∧ Nat.gcd puz.G puz.N = 1 := by
  obtain ⟨hNpq, -, -, hbranch⟩ := generatePuzzle_inv hgen
  rw [hNpq]
  rcases hbranch with ⟨-, hG, -, -⟩ | ⟨-, hG, -, -⟩
  · obtain ⟨h2, hlt, hgcd⟩ := randomCoprimeAux_sound hdr fuel 0 puz.G hG
    exact ⟨by omega, hlt, hgcd⟩
  · obtain ⟨h2, hup, hgcd⟩ := deriveBaseFromPassword_sound hN hG
    exact ⟨by omega, by omega, hgcd⟩

/-! ## Claim theorems -/

/-- C2: for every puzzle produced by `GeneratePuzzle` (with or without a
password), the sequential solver reproduces the stored solution: applying
`x ← x·x mod N` exactly `T` times to `g` yields the target, and the target
equals `g ^ (2^T) mod N`, even though the generator computed it with the
reduced exponent `2^T mod φ(N)`. -/
theorem solver_reproduces_generated_target
    (idKey : List Nat → List Nat → Nat → Nat → Nat → Nat → List Nat)
    (t : Nat) (password : List Nat) (p q : Nat) (draws : Nat → Nat)
    (salt : List Nat) (fuel : Nat) (puz : Puzzle)
    (hp : p.Prime) (hq : q.Prime) (hpq : p ≠ q)
    (hdr : ∀ i, draws i < p * q - 2)
    (hgen : generatePuzzle idKey t password p q draws salt fuel = some puz) :
    solvePuzzle puz.N puz.G puz.T = puz.target ∧
    puz.target = puz.G ^ 2 ^ puz.T % puz.N := by
  obtain ⟨hN, hT, htarget, -⟩ := generatePuzzle_inv hgen
  have hss : 4 ≤ p * q := Nat.mul_le_mul hp.two_le hq.two_le
  obtain ⟨hpos, hlt, hgcd⟩ := generatePuzzle_G_sound hss hdr hgen
  rw [hN] at hlt
  have hcop : Nat.Coprime puz.G (p * q) := by
    rw [← hN]
    exact hgcd
  have hmodeq : powTwoMod ((p - 1) * (q - 1)) t ≡ 2 ^ t
      [MOD Nat.totient (p * q)] := by
    rw [totient_pq hp hq hpq]
    exact powTwoMod_modEq _ t
  have hpowcong : puz.G ^ powTwoMod ((p - 1) * (q - 1)) t ≡ puz.G ^ 2 ^ t
      [MOD p * q] := pow_modEq_of_totient_modEq hcop hmodeq
  have htarget2 : puz.target = puz.G ^ 2 ^ t % (p * q) := by
    rw [htarget]
    exact hpowcong
  refine ⟨?_, ?_⟩
  · rw [hN, hT]
    cases t with
    | zero =>
      rw [solvePuzzle_zero, htarget2, pow_zero, pow_one]
      exact (Nat.mod_eq_of_lt hlt).symm
    | succ s =>
      rw [solvePuzzle_eq_pow_mod _ _ _ (Nat.succ_pos s) (by omega), htarget2]
  · rw [hT, hN]
    exact htarget2

/-- Witness for C2 at a concrete instance: primes 5 and 7, `t = 3`, no
password; the solver's three squarings of 3 modulo 35 give the stored
target 16. -/
theorem solver_reproduces_generated_target_witness :
    generatePuzzle trivialPrims.idKey 3 [] 5 7 drawsEx saltEx 40 = some puzEx ∧
    solvePuzzle puzEx.N puzEx.G puzEx.T = puzEx.target ∧
    puzEx.target = puzEx.G ^ 2 ^ puzEx.T % puzEx.N := by
  have hgen : generatePuzzle trivialPrims.idKey 3 [] 5 7 drawsEx saltEx 40 =
      some puzEx := by decide
  refine ⟨hgen, ?_⟩
  exact solver_reproduces_generated_target trivialPrims.idKey 3 [] 5 7 drawsEx
    saltEx 40 puzEx (by norm_num) (by norm_num) (by norm_num)
    (fun _ => (by decide : (1 : Nat) < 5 * 7 - 2)) hgen

/-- C7: with a progress callback and `T > 0`, the callback runs at least
once, its `done` arguments are strictly increasing and lie in `[1, T]`, and
the final invocation reports exactly `T`. -/
theorem progress_monotone_final (t : Nat) (ht : 0 < t) :
    progressTrace t ≠ [] ∧ (progressTrace t).Pairwise (· < ·) ∧
    (∀ d ∈ progressTrace t, 1 ≤ d ∧ d ≤ t) ∧
    (progressTrace t).getLast? = some t :=
  ⟨progressTrace_ne_nil t ht, progressTrace_pairwise t,
   fun _ hd => progressTrace_mem_bounds hd, progressTrace_getLast t ht⟩

/-- Witness for C7 at `T = 3`: the trace is nonempty and ends at 3. -/
theorem progress_monotone_final_witness :
    0 < 3 ∧ progressTrace 3 ≠ [] ∧ (progressTrace 3).getLast? = some 3 :=
  ⟨by decide, (progress_monotone_final 3 (by decide)).1,
   (progress_monotone_final 3 (by decide)).2.2.2⟩

/-- C8: a puzzle generated with `T = 0` has its target equal to its base,
and the solver returns the base without any squaring (and without any
progress report). -/
theorem zero_work_target_eq_base
    (idKey : List Nat → List Nat → Nat → Nat → Nat → Nat → List Nat)
    (password : List Nat) (p q : Nat) (draws : Nat → Nat)
    (salt : List Nat) (fuel : Nat) (puz : Puzzle)
    (hp : p.Prime) (hq : q.Prime)
    (hdr : ∀ i, draws i < p * q - 2)
    (hgen : generatePuzzle idKey 0 password p q draws salt fuel = some puz) :
    puz.target = puz.G ∧ solvePuzzle puz.N puz.G puz.T = puz.G ∧
    progressTrace puz.T = [] ∧ (∀ N g, solvePuzzle N g 0 = g) := by
  obtain ⟨hN, hT, htarget, -⟩ := generatePuzzle_inv hgen
  have hss : 4 ≤ p * q := Nat.mul_le_mul hp.two_le hq.two_le
  obtain ⟨-, hlt, -⟩ := generatePuzzle_G_sound hss hdr hgen
  rw [hN] at hlt
  have he : powTwoMod ((p - 1) * (q - 1)) 0 = 1 := rfl
  have htarget2 : puz.target = puz.G := by
    rw [htarget, he, pow_one]
    exact Nat.mod_eq_of_lt hlt
  refine ⟨htarget2, ?_, ?_, fun N g => solvePuzzle_zero N g⟩
  · rw [hT, solvePuzzle_zero]
  · rw [hT]
    rfl

/-- Witness for C8 at the concrete instance with primes 5 and 7: the
generated `T = 0` puzzle has target 3 equal to its base 3. -/
theorem zero_work_target_eq_base_witness :
    generatePuzzle trivialPrims.idKey 0 [] 5 7 drawsEx saltEx 40 =
      some puz0Ex ∧
    puz0Ex.target = puz0Ex.G ∧
    solvePuzzle puz0Ex.N puz0Ex.G puz0Ex.T = puz0Ex.G ∧
    progressTrace puz0Ex.T = [] := by
  have hgen : generatePuzzle trivialPrims.idKey 0 [] 5 7 drawsEx saltEx 40 =
      some puz0Ex := by decide
  have h := zero_work_target_eq_base trivialPrims.idKey [] 5 7 drawsEx saltEx 40
    puz0Ex (by norm_num) (by norm_num)
    (fun _ => (by decide : (1 : Nat) < 5 * 7 - 2)) hgen
  exact ⟨hgen, h.1, h.2.1, h.2.2.1⟩

/-- C9: every generated puzzle base, random or password-derived, satisfies
`0 < g < N` and `gcd(g, N) = 1`; and for any password, salt, parameters and
modulus of at least 4, a successful `DeriveBaseFromPassword` run returns a
base with the same properties. -/
theorem generated_base_invariants
    (idKey idKey2 : List Nat → List Nat → Nat → Nat → Nat → Nat → List Nat)
    (t : Nat) (password : List Nat) (p q : Nat) (draws : Nat → Nat)
    (salt : List Nat) (fuel : Nat) (puz : Puzzle)
    (pw2 salt2 : List Nat) (params2 : Argon2idParams) (N2 fuel2 g2 : Nat)
    (hp : p.Prime) (hq : q.Prime)
    (hdr : ∀ i, draws i < p * q - 2)
    (hgen : generatePuzzle idKey t password p q draws salt fuel = some puz)
    (hN2 : 4 ≤ N2)
    (hder : deriveBaseFromPassword idKey2 pw2 salt2 params2 N2 fuel2 = some g2) :
    (0 < puz.G ∧ puz.G < puz.N ∧ Nat.gcd puz.G puz.N = 1) ∧
    (0 < g2 ∧ g2 < N2 ∧ Nat.gcd g2 N2 = 1) := by
  have hss : 4 ≤ p * q := Nat.mul_le_mul hp.two_le hq.two_le
  refine ⟨generatePuzzle_G_sound hss hdr hgen, ?_⟩
  obtain ⟨h2, hup, hgcd⟩ := deriveBaseFromPassword_sound hN2 hder
  exact ⟨by omega, by omega, hgcd⟩

/-- Witness for C9: the random-base puzzle over `N = 35` carries base 3,
and password derivation over `N = 35` returns base 9; both are in range
and coprime with 35. -/
theorem generated_base_invariants_witness :
    generatePuzzle trivialPrims.idKey 1 [] 5 7 drawsEx saltEx 40 =
      some puz9Ex ∧
    deriveBaseFromPassword trivialPrims.idKey [1] saltEx
      defaultArgon2idParams 35 40 = some 9 ∧
    ((0 < puz9Ex.G ∧ puz9Ex.G < puz9Ex.N ∧ Nat.gcd puz9Ex.G puz9Ex.N = 1) ∧
     (0 < 9 ∧ 9 < 35 ∧ Nat.gcd 9 35 = 1)) := by
  have hgen : generatePuzzle trivialPrims.idKey 1 [] 5 7 drawsEx saltEx 40 =
      some puz9Ex := by decide
  have hder : deriveBaseFromPassword trivialPrims.idKey [1] saltEx
      defaultArgon2idParams 35 40 = some 9 := by decide
  refine ⟨hgen, hder, ?_⟩
  exact generated_base_invariants trivialPrims.idKey trivialPrims.idKey 1 []
    5 7 drawsEx saltEx 40 puz9Ex [1] saltEx defaultArgon2idParams 35 40 9
    (by norm_num) (by norm_num) (fun _ => (by decide : (1 : Nat) < 5 * 7 - 2)) hgen (by norm_num) hder

/-- C1: the record written by `EncryptFile` for a non-empty key input has
`key_required = 1` but carries KDF id 0 and all-zero KDF parameter bytes,
so `DecryptFile` hands the zero Argon2id parameters to the password
derivation — not the default parameters the generator used.  The
password round-trip claimed by the spec therefore cannot hold. -/
theorem encrypt_drops_kdf_metadata (C : CryptoPrims) (plaintext : List Nat)
    (t : Nat) (userKeyRaw : List Nat) (p q : Nat) (draws : Nat → Nat)
    (salt nonce : List Nat) (fuel : Nat)
    (hK : userKeyRaw ≠ [])
    (hgen : (generatePuzzle C.idKey t userKeyRaw p q draws salt fuel).isSome
      = true) :
    (encryptFile C plaintext t userKeyRaw p q draws salt nonce fuel).map
      recordKdfView = some (1, 0, zeroArgon2idParams) ∧
    (generatePuzzle C.idKey t userKeyRaw p q draws salt fuel).map
      Puzzle.kdfParams = some defaultArgon2idParams ∧
    zeroArgon2idParams ≠ defaultArgon2idParams := by
  obtain ⟨puz, hpuz⟩ := Option.isSome_iff_exists.mp hgen
  have hlen : 0 < userKeyRaw.length := List.length_pos.mpr hK
  refine ⟨?_, ?_, by decide⟩
  · unfold encryptFile
    rw [hpuz]
    simp [recordKdfView, puzzleFromEncryptedFile, hlen]
  · obtain ⟨-, -, -, hbranch⟩ := generatePuzzle_inv hpuz
    rcases hbranch with ⟨hpw, -⟩ | ⟨-, -, -, hparams⟩
    · exact absurd hpw hK
    · rw [hpuz]
      simp [hparams]

/-- Witness for C1: encrypting with key input `[1]` over primes 5 and 7
yields a record whose KDF view is `(1, 0, zero)` although generation used
the default Argon2id parameters. -/
theorem encrypt_drops_kdf_metadata_witness :
    ([1] : List Nat) ≠ [] ∧
    (encryptFile trivialPrims [1, 2] 2 [1] 5 7 drawsEx saltEx nonceEx 40).map
      recordKdfView = some (1, 0, zeroArgon2idParams) ∧
    (generatePuzzle trivialPrims.idKey 2 [1] 5 7 drawsEx saltEx 40).map
      Puzzle.kdfParams = some defaultArgon2idParams := by
  have h := encrypt_drops_kdf_metadata trivialPrims [1, 2] 2 [1] 5 7 drawsEx
    saltEx nonceEx 40 (by decide) (by decide)
  exact ⟨by decide, h.1, h.2.1⟩

/-- C3 (amended): the reader applies no version gate at all — for every
well-formed record whose version field is at least 2 (including versions
outside {1, 2}, such as 3), parsing the serialized image succeeds and
returns the record unchanged; no UnsupportedVersion error exists. -/
theorem read_has_no_version_gate (ef : EncryptedFile) (h : wellFormed ef)
    (hv : 2 ≤ ef.version) :
    readEncryptedFile (writeEncryptedFile ef) = some ef :=
  readEncryptedFile_writeEncryptedFile ef h hv

/-- Witness for the amended C3 at a concrete record with version 3. -/
theorem read_has_no_version_gate_witness :
    wellFormed ef3Ex ∧ 2 ≤ ef3Ex.version ∧
    readEncryptedFile (writeEncryptedFile ef3Ex) = some ef3Ex :=
  ⟨by decide, by decide, read_has_no_version_gate ef3Ex (by decide) (by decide)⟩

/-- C3 counterexample: a 558-byte record image whose version field decodes
to 3 — outside {1, 2} — is parsed successfully rather than rejected. -/
theorem read_accepts_version_three :
    (readEncryptedFile bytesV3).map EncryptedFile.version = some 3 := by
  decide

/-- C4 (amended): the serialized record is version, work factor, modulus,
base, key-required flag, salt, then the KDF id byte and the 8 KDF parameter
bytes, followed by the u64 data length and the data — a 550-byte fixed
header before the data length, for 558 bytes plus the data in total. -/
theorem write_layout_550_header (ef : EncryptedFile) (h : wellFormed ef) :
    (writeEncryptedFile ef).length = 558 + ef.data.length ∧
    (writeEncryptedFile ef).take 550 =
      toLEBytes 4 ef.version ++ toLEBytes 8 ef.workFactor ++ ef.modulusN ++
      ef.baseG ++ [ef.keyRequired] ++ ef.salt ++ [ef.kdfID] ++ ef.kdfParams ∧
    (writeEncryptedFile ef).drop 550 =
      toLEBytes 8 ef.data.length ++ ef.data := by
  obtain ⟨h1, h2, h3, h4, h5, h6, h7, h8, h9⟩ := h
  have hsplit := writeEncryptedFile_split ef
  have hlen := writeEncryptedFile_header_length ef h3 h4 h6 h8
  refine ⟨?_, ?_, ?_⟩
  · rw [hsplit, List.length_append, hlen, List.length_append, toLEBytes_length]
    omega
  · rw [hsplit, List.take_left' hlen]
  · rw [hsplit, List.drop_left' hlen]

/-- Witness for the amended C4 at the all-zero record. -/
theorem write_layout_550_header_witness :
    wellFormed efZero ∧
    ((writeEncryptedFile efZero).length = 558 + efZero.data.length ∧
     (writeEncryptedFile efZero).take 550 =
       toLEBytes 4 efZero.version ++ toLEBytes 8 efZero.workFactor ++
       efZero.modulusN ++ efZero.baseG ++ [efZero.keyRequired] ++
       efZero.salt ++ [efZero.kdfID] ++ efZero.kdfParams ∧
     (writeEncryptedFile efZero).drop 550 =
       toLEBytes 8 efZero.data.length ++ efZero.data) :=
  ⟨by decide, write_layout_550_header efZero (by decide)⟩

/-- C4 counterexample: the serialization of the empty-data record is 558
bytes, not the 549 = 541 + 8 bytes the claimed field list implies. -/
theorem write_header_is_not_541 :
    (writeEncryptedFile efZero).length = 558 ∧
    (writeEncryptedFile efZero).length ≠ 541 + 8 + efZero.data.length := by
  decide

/-- C5: decrypting a record with `key_required = 1` while supplying an
empty key input fails with the KeyRequiredButMissing error. -/
theorem decrypt_missing_key_errors (C : CryptoPrims) (fuel : Nat)
    (ef : EncryptedFile) (keyInput : List Nat)
    (hkr : ef.keyRequired = 1) (hkey : keyInput = []) :
    decryptFile C fuel ef keyInput = .error .keyRequiredButMissing := by
  unfold decryptFile
  rw [if_pos ⟨hkr, hkey⟩]

/-- Witness for C5 at a concrete keyed record and the empty key input. -/
theorem decrypt_missing_key_errors_witness :
    ef5Ex.keyRequired = 1 ∧
    decryptFile trivialPrims 5 ef5Ex [] = .error .keyRequiredButMissing :=
  ⟨by decide, decrypt_missing_key_errors trivialPrims 5 ef5Ex [] (by decide) rfl⟩

/-- C6: when `key_required = 0`, decryption with any key input equals
decryption with the empty key input — the stray key is dropped before any
use, so it can neither change the result nor cause a failure. -/
theorem decrypt_ignores_stray_key (C : CryptoPrims) (fuel : Nat)
    (ef : EncryptedFile) (keyInput : List Nat) (h : ef.keyRequired = 0) :
    decryptFile C fuel ef keyInput = decryptFile C fuel ef [] := by
  unfold decryptFile
  by_cases hk : keyInput = []
  · rw [hk]
  · have h1 : ¬(ef.keyRequired = 1 ∧ keyInput = []) := by simp [hk]
    have h2 : ¬(ef.keyRequired = 1 ∧ ([] : List Nat) = []) := by simp [h]
    rw [if_neg h1, if_neg h2]
    simp [h, hk]

/-- Witness for C6: on a concrete keyless record, decrypting with the stray
key `[9]` is the same computation as decrypting with no key. -/
theorem decrypt_ignores_stray_key_witness :
    ef6Ex.keyRequired = 0 ∧
    decryptFile trivialPrims 5 ef6Ex [9] = decryptFile trivialPrims 5 ef6Ex [] :=
  ⟨by decide, decrypt_ignores_stray_key trivialPrims 5 ef6Ex [9] (by decide)⟩

/-- C10: for every key and every blob shorter than the 12-byte nonce,
`DecryptData` returns the ciphertext-too-short error; the nonce split is
performed only in the other branch. -/
theorem decryptData_short_input_errors (C : CryptoPrims)
    (key ciphertext : List Nat) (h : ciphertext.length < 12) :
    decryptData C key ciphertext = .error .ciphertextTooShort := by
  unfold decryptData
  rw [if_pos h]

/-- Witness for C10 at a 3-byte blob. -/
theorem decryptData_short_input_errors_witness :
    ([1, 2, 3] : List Nat).length < 12 ∧
    decryptData trivialPrims (List.replicate 32 0) [1, 2, 3] =
      .error .ciphertextTooShort :=
  ⟨by decide, decryptData_short_input_errors trivialPrims
    (List.replicate 32 0) [1, 2, 3] (by decide)⟩

end Cryptotimed
